import Mathlib

/-!
# Verification of the http-rs core against its specification

Shallow embedding of the `http` crate's core data model and operations:
bodies (`src/http/src/body.rs`), methods (`method.rs`), versions
(`version.rs`), headers (`headers.rs`), the router (`router.rs`), request
parsing (`request.rs`), chunked response serialization (`response.rs`) and
the per-connection dispatch step (`connect.rs`).

Bytes are modelled as `Nat` (the inputs of interest are ASCII), byte
buffers as `List Nat`, handlers as opaque identifiers (`Nat`), and the
`tokio` `HashMap`s as association lists where insertion prepends and
lookup takes the first match (last write wins, as for `HashMap::insert`).
An `AsyncRead` source is modelled as the list of byte chunks its
successive polls supply; a read with capacity `c` yields at most `c`
bytes of the next poll, and an empty poll result is the `Ok(0)`
end-of-stream signal.
-/

namespace HttpRs

/-- Byte sequence of a string; the strings in play are ASCII, where the
UTF-8 bytes coincide with the code points (`str::as_bytes`). -/
def asBytes (s : String) : List Nat :=
  s.toList.map Char.toNat

/-! ## `body.rs`: `HttpBody` -/

/-- `HttpBody` from `src/http/src/body.rs`: `InMemory { data }`,
`Streaming { reader, read_buf, buffer_size }` and `Empty`.  The reader is
the list of chunks its successive polls produce. -/
inductive HttpBody where
  | inMemory (data : List Nat)
  | streaming (reader : List (List Nat)) (read_buf : List Nat) (buffer_size : Nat)
  | empty
deriving DecidableEq, Repr

/-- `HttpBody::new` returns `Empty`. -/
def HttpBody.new : HttpBody := .empty

/-- `HttpBody::from_data`: an empty vector gives `Empty`, otherwise
`InMemory`. -/
def HttpBody.from_data (data : List Nat) : HttpBody :=
  if data.isEmpty then .empty else .inMemory data

/-- `HttpBody::from_reader`: a `Streaming` body with a fresh read buffer
and the given buffer size. -/
def HttpBody.from_reader (reader : List (List Nat)) (buffer_size : Nat) : HttpBody :=
  .streaming reader [] buffer_size

/-- `impl From<&str> for HttpBody`: always `InMemory`, even for `""`. -/
def HttpBody.fromStr (s : String) : HttpBody :=
  .inMemory (asBytes s)

/-- `HttpBody::read_next` (the `Ok` paths; no I/O error arises in the
model).  `InMemory` hands out its data once and clears it; `Streaming`
clears and resizes its buffer to `buffer_size`, reads one poll (at most
`buffer_size` bytes of it), treats a zero-byte read as end of stream, and
otherwise truncates the buffer to the bytes read; `Empty` yields nothing.
Returns the yielded chunk and the body's new state. -/
def HttpBody.read_next : HttpBody → Option (List Nat) × HttpBody
  | .inMemory data =>
      if data.isEmpty then (none, .inMemory data)
      else (some data, .inMemory [])
  | .streaming reader _ buffer_size =>
      match reader with
      | [] => (none, .streaming [] (List.replicate buffer_size 0) buffer_size)
      | c :: rest =>
          let chunk := c.take buffer_size
          if chunk.isEmpty then (none, .streaming rest (List.replicate buffer_size 0) buffer_size)
          else (some chunk, .streaming rest chunk buffer_size)
  | .empty => (none, .empty)

/-- `HttpBody::is_streaming`. -/
def HttpBody.is_streaming : HttpBody → Bool
  | .streaming _ _ _ => true
  | _ => false

/-- `HttpBody::content_length`: `Some(data.len())` for `InMemory`, `None`
for `Streaming` and for `Empty`. -/
def HttpBody.content_length : HttpBody → Option Nat
  | .inMemory data => some data.length
  | .streaming _ _ _ => none
  | .empty => none

/-- State of a body after `k` further calls to `read_next`, together with
the chunk the `k`-th call (0-indexed) yields. -/
def readCalls : HttpBody → Nat → Option (List Nat) × HttpBody
  | b, 0 => b.read_next
  | b, k + 1 => readCalls (b.read_next).2 k

/-- A body is in the `Streaming` variant with buffer size `B`. -/
def streamingWith (b : HttpBody) (B : Nat) : Prop :=
  ∃ r buf, b = .streaming r buf B

/-! ## `method.rs`: `HttpMethod` -/

/-- `HttpMethod` from `src/http/src/method.rs`: `Get`, `Post`,
`NoSupport`. -/
inductive HttpMethod where
  | get
  | post
  | noSupport
deriving DecidableEq, Repr

/-- `impl From<&str> for HttpMethod`: `"GET"` and `"POST"` map to their
variants, everything else to `NoSupport`. -/
def HttpMethod.fromStr (s : String) : HttpMethod :=
  if s = "GET" then .get else if s = "POST" then .post else .noSupport

/-! ## `router.rs`: the route tree

The `tokio::sync::RwLock`-guarded `HashMap`s become association lists:
insertion prepends and lookup returns the first match, so the last write
for a key wins, as for `HashMap::insert`.  Handlers (`HandlerFn`) are
opaque and modelled as `Nat` identifiers.  The two `todo!()` arms of
`HttpRouter::add` (parameter segments `:name` and wildcard `*`) are
panics, modelled as `Except.error ()`. -/

/-- First-match lookup in an association list (`HashMap::get`). -/
def alistGet {α β : Type} [DecidableEq α] : List (α × β) → α → Option β
  | [], _ => none
  | (k, v) :: rest, a => if k = a then some v else alistGet rest a

/-- Overwriting insertion (`HashMap::insert`): the new binding shadows
any older one under first-match lookup. -/
def alistPut {α β : Type} (m : List (α × β)) (k : α) (v : β) : List (α × β) :=
  (k, v) :: m

/-- `RouteNode` from `src/http/src/router.rs`: node name, per-method
handler map, static children, and the (never-written) wildcard handler.
The `param_route` and `middlewares` fields play no part in `add` or
`find_handler` and are omitted. -/
inductive RouteNode where
  | mk (name : String) (handlers : List (HttpMethod × Nat))
      (static_routes : List (String × RouteNode))
      (wildcard_handler : Option Nat)

/-- The node's per-method handler map. -/
def RouteNode.handlers : RouteNode → List (HttpMethod × Nat)
  | .mk _ h _ _ => h

/-- The node's static children. -/
def RouteNode.static_routes : RouteNode → List (String × RouteNode)
  | .mk _ _ s _ => s

/-- The node's wildcard handler slot. -/
def RouteNode.wildcard_handler : RouteNode → Option Nat
  | .mk _ _ _ w => w

/-- `RouteNode::new`: the root node `"/"` with empty maps. -/
def RouteNode.newRoot : RouteNode := .mk "/" [] [] none

/-- `RouteNode::with_name`: an empty node with the given name. -/
def RouteNode.with_name (name : String) : RouteNode := .mk name [] [] none

/-- Replace the node's static-children map. -/
def RouteNode.withStatic : RouteNode → List (String × RouteNode) → RouteNode
  | .mk n h _ w, s => .mk n h s w

/-- Insert a handler into the node's handler map
(`handlers.write().await.insert(method, handler)`). -/
def RouteNode.putHandler : RouteNode → HttpMethod → Nat → RouteNode
  | .mk n h s w, m, f => .mk n ((m, f) :: h) s w

/-- `path.trim_matches('/')` on the character list: strip leading and
trailing `'/'`. -/
def trimSlashes (cs : List Char) : List Char :=
  ((cs.dropWhile (· = '/')).reverse.dropWhile (· = '/')).reverse

/-- `str::split('/')`: substrings between separators, empties included,
and `[""]` on empty input. -/
def splitSlash : List Char → List Char → List String
  | [], acc => [String.mk acc.reverse]
  | c :: rest, acc =>
      if c = '/' then String.mk acc.reverse :: splitSlash rest []
      else splitSlash rest (c :: acc)

/-- `path.trim_matches('/').split('/').collect()`, the segmentation both
`add` and `find_handler` perform. -/
def segmentsOf (path : String) : List String :=
  splitSlash (trimSlashes path.toList) []

/-- The segment walk of `HttpRouter::add` (`router.rs` lines 159–197):
empty segments are skipped; a `:`-prefixed or `*` segment hits `todo!()`
(modelled `Except.error ()`); otherwise the child is created if absent
and descended into; at the end the handler is inserted under the given
method, whatever it is. -/
def addSegs : RouteNode → List String → HttpMethod → Nat → Except Unit RouteNode
  | node, [], method, handler => .ok (node.putHandler method handler)
  | node, seg :: rest, method, handler =>
      if seg = "" then addSegs node rest method handler
      else if seg.toList.head? = some ':' then .error ()
      else if seg = "*" then .error ()
      else
        match alistGet node.static_routes seg with
        | some child =>
            match addSegs child rest method handler with
            | .error e => .error e
            | .ok child' => .ok (node.withStatic (alistPut node.static_routes seg child'))
        | none =>
            match addSegs (RouteNode.with_name seg) rest method handler with
            | .error e => .error e
            | .ok child' => .ok (node.withStatic (alistPut node.static_routes seg child'))

/-- `HttpRouter::add`. -/
def HttpRouter.add (root : RouteNode) (method : HttpMethod) (path : String)
    (handler : Nat) : Except Unit RouteNode :=
  addSegs root (segmentsOf path) method handler

/-- The segment walk of `HttpRouter::find_handler` (`router.rs` lines
199–231), returning the looked-up handler **and** the tree it leaves
behind: the code inserts a fresh empty node whenever a child segment is
absent (its `None => return None` arm is unreachable, since the insert
just succeeded), then reads the terminal node's handler map. -/
def findSegs : RouteNode → List String → HttpMethod → Option Nat × RouteNode
  | node, [], method => (alistGet node.handlers method, node)
  | node, seg :: rest, method =>
      if seg = "" then findSegs node rest method
      else
        match alistGet node.static_routes seg with
        | some child =>
            let r := findSegs child rest method
            (r.1, node.withStatic (alistPut node.static_routes seg r.2))
        | none =>
            let r := findSegs (RouteNode.with_name seg) rest method
            (r.1, node.withStatic (alistPut node.static_routes seg r.2))

/-- `HttpRouter::find_handler`, with the tree it leaves behind. -/
def HttpRouter.find_handler (root : RouteNode) (path : String)
    (method : HttpMethod) : Option Nat × RouteNode :=
  findSegs root (segmentsOf path) method

/-! ## Chunked serialization (`response.rs`, `send_chunked`) -/

/-- The bytes `"\r\n"`. -/
def CRLF : List Nat := [13, 10]

/-- Byte of one hexadecimal digit as `format!("{:X}")` prints it:
`'0'..'9'` then uppercase `'A'..'F'`. -/
def hexDigitByte (d : Nat) : Nat :=
  if d < 10 then 48 + d else 55 + d

/-- Hexadecimal digits of `n`, most significant first, empty for `0`. -/
def hexBytesAux : Nat → List Nat
  | 0 => []
  | n + 1 => hexBytesAux ((n + 1) / 16) ++ [hexDigitByte ((n + 1) % 16)]
  decreasing_by exact Nat.div_lt_self (Nat.succ_pos n) (by omega)

/-- Bytes of `format!("{:X}", n)`: uppercase hex, no leading zeros,
`"0"` for zero. -/
def hexUpper (n : Nat) : List Nat :=
  if n = 0 then [48] else hexBytesAux n

/-- Decrease measure for the `while let Some(chunk) = read_next()` loops:
an exhausted body takes value 0 and every `Some` step strictly drops it. -/
def bodyFuel : HttpBody → Nat
  | .inMemory data => if data.isEmpty then 0 else 1
  | .streaming reader _ _ => reader.length
  | .empty => 0

/-- `HttpResponse::send_chunked` (`response.rs` lines 131–149), as the
bytes it writes: for each chunk yielded by `read_next`, if the chunk is
non-empty, write the uppercase-hex length, `\r\n`, the chunk and `\r\n`;
when `read_next` yields nothing, write `"0\r\n"` then `"\r\n"`. -/
def send_chunked (b : HttpBody) : List Nat :=
  match h : b.read_next with
  | (none, _) => [48] ++ CRLF ++ CRLF
  | (some chunk, b') =>
      (if chunk.isEmpty then []
       else hexUpper chunk.length ++ CRLF ++ chunk ++ CRLF) ++ send_chunked b'
  termination_by bodyFuel b
  decreasing_by
    cases b with
    | inMemory data =>
        simp only [HttpBody.read_next] at h
        by_cases hd : data.isEmpty
        · rw [if_pos hd] at h; exact absurd h (by simp)
        · rw [if_neg hd] at h
          injection h with h1 h2
          subst h2
          simp [bodyFuel, hd]
    | streaming reader buf B =>
        cases reader with
        | nil => simp [HttpBody.read_next] at h
        | cons x rest =>
            simp only [HttpBody.read_next] at h
            by_cases hx : (x.take B).isEmpty
            · rw [if_pos hx] at h; exact absurd h (by simp)
            · rw [if_neg hx] at h
              injection h with h1 h2
              subst h2
              simp [bodyFuel]
    | empty => simp [HttpBody.read_next] at h

/-- The sequence of chunks successive `read_next` calls yield, up to the
first `None`. -/
def chunksOf (b : HttpBody) : List (List Nat) :=
  match h : b.read_next with
  | (none, _) => []
  | (some chunk, b') => chunk :: chunksOf b'
  termination_by bodyFuel b
  decreasing_by
    cases b with
    | inMemory data =>
        simp only [HttpBody.read_next] at h
        by_cases hd : data.isEmpty
        · rw [if_pos hd] at h; exact absurd h (by simp)
        · rw [if_neg hd] at h
          injection h with h1 h2
          subst h2
          simp [bodyFuel, hd]
    | streaming reader buf B =>
        cases reader with
        | nil => simp [HttpBody.read_next] at h
        | cons x rest =>
            simp only [HttpBody.read_next] at h
            by_cases hx : (x.take B).isEmpty
            · rw [if_pos hx] at h; exact absurd h (by simp)
            · rw [if_neg hx] at h
              injection h with h1 h2
              subst h2
              simp [bodyFuel]
    | empty => simp [HttpBody.read_next] at h

/-! ## `version.rs`: `HttpVersion` -/

/-- `HttpVersion` from `src/http/src/version.rs`. -/
inductive HttpVersion where
  | v1_0
  | v1_1
  | noSupport
deriving DecidableEq, Repr

/-- `impl From<&str> for HttpVersion`. -/
def HttpVersion.fromStr (s : String) : HttpVersion :=
  if s = "HTTP/1.0" then .v1_0 else if s = "HTTP/1.1" then .v1_1 else .noSupport

/-! ## String helpers mirroring the `str` methods the parser uses -/

/-- Generalisation of the `str::split(char)` walk: substrings between
separators, empties included, `[""]` on empty input. -/
def splitChar (sep : Char) : List Char → List Char → List String
  | [], acc => [String.mk acc.reverse]
  | c :: rest, acc =>
      if c = sep then String.mk acc.reverse :: splitChar sep rest []
      else splitChar sep rest (c :: acc)

/-- `str::splitn(2, ':')`: the piece before the first `':'` and the whole
remainder after it, or the whole string when no `':'` occurs. -/
def splitFirstColon (s : String) : List String :=
  if ':' ∈ s.toList then
    [String.mk (s.toList.takeWhile (· ≠ ':')),
     String.mk ((s.toList.dropWhile (· ≠ ':')).tail)]
  else [s]

/-- `str::trim` (the inputs of interest are ASCII, where Rust's Unicode
whitespace and `Char.isWhitespace` agree). -/
def trimWs (s : String) : String :=
  String.mk (((s.toList.dropWhile Char.isWhitespace).reverse.dropWhile
    Char.isWhitespace).reverse)

/-- Strip one trailing `'\r'`, as `str::lines` does per line. -/
def stripTrailingCR (l : List Char) : List Char :=
  if l.getLast? = some '\r' then l.dropLast else l

/-- `str::lines`: split on `'\n'`, drop a final empty piece (from a
trailing newline), strip one trailing `'\r'` from each line; the empty
string has no lines. -/
def linesOf (s : String) : List String :=
  if s.toList.isEmpty then []
  else
    let parts := splitChar '\n' s.toList []
    let parts := if parts.getLast? = some "" then parts.dropLast else parts
    parts.map fun l => String.mk (stripTrailingCR l.toList)

/-- Split on a character predicate, keeping empty pieces. -/
def splitPred (p : Char → Bool) : List Char → List Char → List String
  | [], acc => [String.mk acc.reverse]
  | c :: rest, acc =>
      if p c then String.mk acc.reverse :: splitPred p rest []
      else splitPred p rest (c :: acc)

/-- `str::split_whitespace`: splitting on every whitespace character and
discarding empty pieces yields exactly the whitespace-separated words. -/
def split_whitespace (s : String) : List String :=
  (splitPred Char.isWhitespace s.toList []).filter (fun t => t ≠ "")

/-! ## `headers.rs` and the two header-parsing loops of `request.rs` -/

/-- The `HttpHeaders` hash map built from insertion-ordered pairs:
`insert` overwrites, so a later pair shadows an earlier one under
first-match lookup. -/
def headersOf (pairs : List (String × String)) : List (String × String) :=
  pairs.foldl (fun acc q => alistPut acc q.1 q.2) []

/-- The header loop of `HttpRequest::parse_headers` (`request.rs` lines
164–177), as the list of `(key, value)` pairs it inserts, in order: stop
at the first blank line, split each line with `splitn(2, ':')`, record
the trimmed pair when the split has two parts, silently skip the line
otherwise. -/
def parse_headers_pairs : List String → List (String × String)
  | [] => []
  | line :: rest =>
      if line = "" then []
      else
        match splitFirstColon line with
        | [k, v] => (trimWs k, trimWs v) :: parse_headers_pairs rest
        | _ => parse_headers_pairs rest

/-- The header loop of `impl From<&str> for HttpRequest` (`request.rs`
lines 52–65), as the list of `(key, value)` pairs it inserts, in order:
stop at the first blank line, split each line with `split(':')` (every
colon), record the trimmed pair only when that split has exactly two
parts, silently skip the line otherwise. -/
def fromStrHeaderPairs : List String → List (String × String)
  | [] => []
  | line :: rest =>
      if line = "" then []
      else
        match splitChar ':' line.toList [] with
        | [k, v] => (trimWs k, trimWs v) :: fromStrHeaderPairs rest
        | _ => fromStrHeaderPairs rest

/-! ## `request.rs`: `impl From<&str> for HttpRequest` -/

/-- The parsed-request record: method, insertion-ordered header pairs,
body, URI path and version. -/
structure HttpRequest where
  method : HttpMethod
  headers : List (String × String)
  body : HttpBody
  uri : String
  version : HttpVersion
deriving DecidableEq, Repr

/-- `header_lines` of the `From<&str>` parser: how many lines the header
loop consumes before the first blank line. -/
def headerLinesCount : List String → Nat
  | [] => 0
  | line :: rest => if line = "" then 0 else headerLinesCount rest + 1

/-- `impl From<&str> for HttpRequest` (`request.rs` lines 29–81): the
request line must split on whitespace into exactly 3 tokens, else the
defaults `NoSupport` / `""` / `V1_1` stand; headers come from the
`split(':')` loop; the body is `from_data` of the bytes of the lines past
the blank separator, concatenated without newlines. -/
def requestFromStr (value : String) : HttpRequest :=
  let lines := linesOf value
  let rl :=
    match lines with
    | [] => (HttpMethod.noSupport, "", HttpVersion.v1_1)
    | l0 :: _ =>
        match split_whitespace l0 with
        | [a, b, c] => (HttpMethod.fromStr a, b, HttpVersion.fromStr c)
        | _ => (HttpMethod.noSupport, "", HttpVersion.v1_1)
  let headerPairs :=
    match lines with
    | [] => []
    | _ :: rest => fromStrHeaderPairs rest
  let hcount :=
    match lines with
    | [] => 0
    | _ :: rest => headerLinesCount rest
  let data := (lines.drop (1 + hcount + 1)).flatMap asBytes
  { method := rl.1, headers := headerPairs, body := HttpBody.from_data data,
    uri := rl.2.1, version := rl.2.2 }

/-! ## `connect.rs`: keep-alive decision and the dispatch step -/

/-- ASCII lower-casing of one character (`u8::to_ascii_lowercase`). -/
def asciiLower (c : Char) : Char :=
  if 'A' ≤ c ∧ c ≤ 'Z' then Char.ofNat (c.toNat + 32) else c

/-- `str::eq_ignore_ascii_case`. -/
def eqIgnoreAsciiCase (a b : String) : Bool :=
  a.toList.map asciiLower == b.toList.map asciiLower

/-- `Option::is_some_and`. -/
def optIsSomeAnd (o : Option String) (p : String → Bool) : Bool :=
  match o with
  | some v => p v
  | none => false

/-- The keep-alive decision of `HttpConnection::process` (`connect.rs`
lines 94–108): for `V1_1`, keep alive unless the `Connection` header
`is_some_and` equals-ignoring-ASCII-case `"close"`; otherwise keep alive
only if it `is_some_and` equals `"keep-alive"`; then forced to `false`
when the connection's `keep_alive` configuration is off. -/
def keepAliveDecision (serverKA : Bool) (req : HttpRequest) : Bool :=
  let ka :=
    if req.version = .v1_1 then
      !(optIsSomeAnd (alistGet (headersOf req.headers) "Connection")
        (fun h => eqIgnoreAsciiCase h "close"))
    else
      optIsSomeAnd (alistGet (headersOf req.headers) "Connection")
        (fun h => eqIgnoreAsciiCase h "keep-alive")
  if !serverKA then false else ka

/-- The response record of `response.rs` (without the writer). -/
structure HttpResponse where
  status_code : Nat
  status_text : String
  headers : List (String × String)
  body : HttpBody
  chunked : Bool
deriving DecidableEq, Repr

/-- The `404 Not Found` response the no-route arm of
`HttpConnection::process` builds: `Content-Type: text/plain` and the
in-memory body `"Not Found"`. -/
def response404 : HttpResponse :=
  { status_code := 404, status_text := "Not Found",
    headers := [("Content-Type", "text/plain")],
    body := HttpBody.fromStr "Not Found", chunked := false }

/-- What `process` does after one request is read out of the loop body
(`connect.rs` lines 89–146): send the response and go round the loop
again (`continueReading`), or send it and stop (`closed`). -/
inductive LoopOutcome where
  | closed
  | continueReading
deriving DecidableEq, Repr

/-- One dispatch iteration of `HttpConnection::process` on a parsed-out
header block `raw` (lines 89–146 of `connect.rs`): parse the request,
decide keep-alive, look up the handler.  With no handler: send the
synthesized 404 (without touching its `Connection` header) and
`return Ok(())`, ending the loop.  With a handler: obtain its response,
insert `Connection: keep-alive/close`, send, and continue the loop only
if keep-alive was decided.  Returns the response sent, the keep-alive
decision, and the loop outcome. -/
def processStep (serverKA : Bool) (root : RouteNode) (raw : String)
    (handlerResp : Nat → HttpRequest → HttpResponse) :
    HttpResponse × Bool × LoopOutcome :=
  let req := requestFromStr raw
  let ka := keepAliveDecision serverKA req
  match (HttpRouter.find_handler root req.uri req.method).1 with
  | none => (response404, ka, .closed)
  | some h =>
      let resp := handlerResp h req
      let resp := { resp with
        headers := resp.headers ++
          [("Connection", if ka && serverKA then "keep-alive" else "close")] }
      (resp, ka, if ka then .continueReading else .closed)

/-- C6's words for the keep-alive decision: for HTTP/1.1, keep-alive
unless the request's `Connection` header equals `"close"` compared
case-insensitively; for HTTP/1.0 or any non-1.1 version, close unless the
`Connection` header equals `"keep-alive"`; forced to close when the
connection was configured with keep-alive disabled server-wide. -/
def keepAliveClaim (serverKA : Bool) (version : HttpVersion)
    (conn : Option String) : Bool :=
  if serverKA = false then false
  else
    match version, conn with
    | .v1_1, none => true
    | .v1_1, some v => !(eqIgnoreAsciiCase v "close")
    | _, none => false
    | _, some v => eqIgnoreAsciiCase v "keep-alive"

/-! ## Claim-level header recording (spec side of C7) -/

/-- C7's words for a header loop: stop at the first blank line; a line
containing `':'` is split at the **first** `':'` into a key and a value,
both whitespace-trimmed, and that pair is recorded; a line with no `':'`
is silently skipped. -/
def firstColonHeaderPairs : List String → List (String × String)
  | [] => []
  | line :: rest =>
      if line = "" then []
      else if ':' ∈ line.toList then
        (trimWs (String.mk (line.toList.takeWhile (· ≠ ':'))),
         trimWs (String.mk ((line.toList.dropWhile (· ≠ ':')).tail))) ::
          firstColonHeaderPairs rest
      else firstColonHeaderPairs rest

/-- The behavior the `From<&str>` loop actually has: the first-colon pair
is recorded only when the line contains **exactly one** `':'`; lines with
no colon or several colons are silently skipped. -/
def exactlyOneColonHeaderPairs : List String → List (String × String)
  | [] => []
  | line :: rest =>
      if line = "" then []
      else if line.toList.count ':' = 1 then
        (trimWs (String.mk (line.toList.takeWhile (· ≠ ':'))),
         trimWs (String.mk ((line.toList.dropWhile (· ≠ ':')).tail))) ::
          exactlyOneColonHeaderPairs rest
      else exactlyOneColonHeaderPairs rest

/-! ## Router invariants -/

/-- `addAll`: a sequence of `HttpRouter::add` registrations
`(method, path, handler)`, stopping at the first panic. -/
def addAll : RouteNode → List (HttpMethod × String × Nat) → Except Unit RouteNode
  | node, [] => .ok node
  | node, (m, p, h) :: rest =>
      match HttpRouter.add node m p h with
      | .error e => .error e
      | .ok node' => addAll node' rest

/-- Every handler in the tree is registered under a method other than
`NoSupport`, recursively. -/
inductive MethodsOK : RouteNode → Prop where
  | mk (name : String) (handlers : List (HttpMethod × Nat))
      (static_routes : List (String × RouteNode)) (w : Option Nat)
      (hh : ∀ p ∈ handlers, p.1 ≠ HttpMethod.noSupport)
      (hs : ∀ q ∈ static_routes, MethodsOK q.2) :
      MethodsOK (.mk name handlers static_routes w)

/-! ## Helper lemmas -/

lemma read_next_streamingWith {b : HttpBody} {B : Nat} (h : streamingWith b B) :
    streamingWith b.read_next.2 B ∧
      ∀ c, b.read_next.1 = some c → 1 ≤ c.length ∧ c.length ≤ B := by
  obtain ⟨r, buf, rfl⟩ := h
  cases r with
  | nil =>
      exact ⟨⟨[], _, rfl⟩, by simp [HttpBody.read_next]⟩
  | cons c rest =>
      by_cases hc : (c.take B).isEmpty
      · refine ⟨⟨rest, List.replicate B 0, ?_⟩, ?_⟩
        · simp [HttpBody.read_next, hc]
        · simp [HttpBody.read_next, hc]
      · refine ⟨⟨rest, c.take B, ?_⟩, ?_⟩
        · simp [HttpBody.read_next, hc]
        · intro d hd
          simp only [HttpBody.read_next, hc, if_false] at hd
          obtain rfl : c.take B = d := by simpa using hd
          constructor
          · have : c.take B ≠ [] := by simpa [List.isEmpty_iff] using hc
            have := List.length_pos.mpr this
            omega
          · simp

lemma readCalls_streamingWith {B : Nat} :
    ∀ (k : Nat) (b : HttpBody), streamingWith b B →
      ∀ c, (readCalls b k).1 = some c → 1 ≤ c.length ∧ c.length ≤ B := by
  intro k
  induction k with
  | zero => intro b hb c hc; exact (read_next_streamingWith hb).2 c hc
  | succ k ih =>
      intro b hb c hc
      exact ih _ (read_next_streamingWith hb).1 c hc

lemma bodyFuel_read_next_lt {b b' : HttpBody} {c : List Nat}
    (h : b.read_next = (some c, b')) : bodyFuel b' < bodyFuel b := by
  cases b with
  | inMemory data =>
      simp only [HttpBody.read_next] at h
      by_cases hd : data.isEmpty
      · rw [if_pos hd] at h; exact absurd h (by simp)
      · rw [if_neg hd] at h
        injection h with h1 h2
        subst h2
        simp [bodyFuel, hd]
  | streaming reader buf B =>
      cases reader with
      | nil => simp [HttpBody.read_next] at h
      | cons x rest =>
          simp only [HttpBody.read_next] at h
          by_cases hx : (x.take B).isEmpty
          · rw [if_pos hx] at h; exact absurd h (by simp)
          · rw [if_neg hx] at h
            injection h with h1 h2
            subst h2
            simp [bodyFuel]
  | empty => simp [HttpBody.read_next] at h

lemma send_chunked_none {b b' : HttpBody} (h : b.read_next = (none, b')) :
    send_chunked b = [48] ++ CRLF ++ CRLF := by
  rw [send_chunked.eq_def]
  split
  · rfl
  · rename_i chunk b2 heq
    rw [h] at heq
    simp at heq

lemma send_chunked_some {b b' : HttpBody} {c : List Nat}
    (h : b.read_next = (some c, b')) :
    send_chunked b =
      (if c.isEmpty then [] else hexUpper c.length ++ CRLF ++ c ++ CRLF) ++
        send_chunked b' := by
  rw [send_chunked.eq_def]
  split
  · rename_i b2 heq
    rw [h] at heq
    simp at heq
  · rename_i chunk b2 heq
    rw [h] at heq
    injection heq with h1 h2
    obtain rfl : c = chunk := by injection h1
    rw [← h2]

lemma chunksOf_none {b b' : HttpBody} (h : b.read_next = (none, b')) :
    chunksOf b = [] := by
  rw [chunksOf.eq_def]
  split
  · rfl
  · rename_i chunk b2 heq
    rw [h] at heq
    simp at heq

lemma chunksOf_some {b b' : HttpBody} {c : List Nat}
    (h : b.read_next = (some c, b')) :
    chunksOf b = c :: chunksOf b' := by
  rw [chunksOf.eq_def]
  split
  · rename_i b2 heq
    rw [h] at heq
    simp at heq
  · rename_i chunk b2 heq
    rw [h] at heq
    injection heq with h1 h2
    obtain rfl : c = chunk := by injection h1
    rw [← h2]

lemma send_chunked_format_aux (n : Nat) :
    ∀ b : HttpBody, bodyFuel b ≤ n →
      send_chunked b =
        ((chunksOf b).filter (fun c => !c.isEmpty)).flatMap
          (fun c => hexUpper c.length ++ CRLF ++ c ++ CRLF) ++ ([48] ++ CRLF ++ CRLF) := by
  induction n with
  | zero =>
      intro b hb
      match hrn : b.read_next with
      | (none, b') =>
          rw [send_chunked_none hrn, chunksOf_none hrn]
          simp
      | (some c, b') =>
          exact absurd (bodyFuel_read_next_lt hrn) (by omega)
  | succ n ih =>
      intro b hb
      match hrn : b.read_next with
      | (none, b') =>
          rw [send_chunked_none hrn, chunksOf_none hrn]
          simp
      | (some c, b') =>
          have hlt := bodyFuel_read_next_lt hrn
          rw [send_chunked_some hrn, chunksOf_some hrn, ih b' (by omega)]
          by_cases hc : c.isEmpty
          · simp [List.filter, hc]
          · simp only [List.filter, hc, Bool.not_false, if_neg]
            simp [hc, List.flatMap_cons]

lemma splitChar_not_mem (sep : Char) : ∀ (l acc : List Char), sep ∉ l →
    splitChar sep l acc = [String.mk (acc.reverse ++ l)] := by
  intro l
  induction l with
  | nil => intro acc _; simp [splitChar]
  | cons c rest ih =>
      intro acc h
      have hc : ¬c = sep := fun hh => h (hh ▸ List.mem_cons_self ..)
      simp only [splitChar, if_neg hc]
      rw [ih (c :: acc) fun hm => h (List.mem_cons_of_mem _ hm)]
      simp

lemma splitChar_mem (sep : Char) : ∀ (l acc : List Char), sep ∈ l →
    splitChar sep l acc =
      String.mk (acc.reverse ++ l.takeWhile (· ≠ sep)) ::
        splitChar sep ((l.dropWhile (· ≠ sep)).tail) [] := by
  intro l
  induction l with
  | nil => intro acc h; cases h
  | cons c rest ih =>
      intro acc h
      by_cases hc : c = sep
      · subst hc
        simp [splitChar, List.takeWhile_cons, List.dropWhile_cons]
      · have hmem : sep ∈ rest := by
          rcases List.mem_cons.mp h with h1 | h1
          · exact absurd h1.symm hc
          · exact h1
        simp only [splitChar, if_neg hc]
        rw [ih (c :: acc) hmem]
        simp [List.takeWhile_cons, List.dropWhile_cons, hc]

lemma splitChar_length (sep : Char) : ∀ (l acc : List Char),
    (splitChar sep l acc).length = l.count sep + 1 := by
  intro l
  induction l with
  | nil => intro acc; simp [splitChar]
  | cons c rest ih =>
      intro acc
      by_cases hc : c = sep
      · subst hc
        simp [splitChar, ih, List.count_cons]
      · simp [splitChar, hc, ih, List.count_cons]

lemma count_colon_tail : ∀ l : List Char, ':' ∈ l →
    l.count ':' = ((l.dropWhile (· ≠ ':')).tail).count ':' + 1 := by
  intro l
  induction l with
  | nil => intro h; cases h
  | cons c rest ih =>
      intro h
      by_cases hc : c = ':'
      · subst hc
        simp [List.dropWhile_cons, List.count_cons]
      · have hmem : ':' ∈ rest := by
          rcases List.mem_cons.mp h with h1 | h1
          · exact absurd h1.symm hc
          · exact h1
        have hcc : ¬(':' = c) := fun hh => hc hh.symm
        simp [List.dropWhile_cons, hc, List.count_cons, ih hmem, hcc]

lemma methodsOK_newRoot : MethodsOK RouteNode.newRoot :=
  .mk _ _ _ _ (by simp) (by simp)

lemma methodsOK_with_name (s : String) : MethodsOK (RouteNode.with_name s) :=
  .mk _ _ _ _ (by simp) (by simp)

lemma alistGet_mem {α β : Type} [DecidableEq α] {l : List (α × β)} {a : α} {b : β}
    (h : alistGet l a = some b) : (a, b) ∈ l := by
  induction l with
  | nil => simp [alistGet] at h
  | cons p rest ih =>
      obtain ⟨k, v⟩ := p
      by_cases hk : k = a
      · subst hk
        simp only [alistGet, if_pos rfl] at h
        obtain rfl : v = b := by injection h
        exact List.mem_cons_self ..
      · simp only [alistGet, if_neg hk] at h
        exact List.mem_cons_of_mem _ (ih h)

lemma alistGet_eq_none {α β : Type} [DecidableEq α] {l : List (α × β)} {a : α}
    (h : ∀ p ∈ l, p.1 ≠ a) : alistGet l a = none := by
  induction l with
  | nil => rfl
  | cons p rest ih =>
      obtain ⟨k, v⟩ := p
      have hk : k ≠ a := h (k, v) (List.mem_cons_self ..)
      simp only [alistGet, if_neg hk]
      exact ih fun q hq => h q (List.mem_cons_of_mem _ hq)

lemma addSegs_methodsOK : ∀ (segs : List String) (node t : RouteNode)
    (m : HttpMethod) (f : Nat), m ≠ .noSupport → MethodsOK node →
    addSegs node segs m f = .ok t → MethodsOK t := by
  intro segs
  induction segs with
  | nil =>
      intro node t m f hm hnode hok
      obtain ⟨name, handlers, statics, w, hh, hs⟩ := hnode
      simp only [addSegs, RouteNode.putHandler] at hok
      obtain rfl : RouteNode.mk name ((m, f) :: handlers) statics w = t := by
        injection hok
      refine .mk _ _ _ _ ?_ hs
      intro p hp
      rcases List.mem_cons.mp hp with hp | hp
      · subst hp; exact hm
      · exact hh p hp
  | cons seg rest ih =>
      intro node t m f hm hnode hok
      by_cases hseg : seg = ""
      · subst hseg
        simp only [addSegs, if_pos rfl] at hok
        exact ih node t m f hm hnode hok
      · obtain ⟨name, handlers, statics, w, hh, hs⟩ := hnode
        simp only [addSegs, if_neg hseg] at hok
        split at hok
        · cases hok
        · split at hok
          · cases hok
          · split at hok
            · rename_i child hget
              split at hok
              · cases hok
              · rename_i child' hrec
                have hchild : MethodsOK child := by
                  have := alistGet_mem hget
                  simp only [RouteNode.static_routes] at this
                  exact hs (seg, child) this
                have hchild' := ih child child' m f hm hchild hrec
                obtain rfl : (RouteNode.mk name handlers statics w).withStatic
                    (alistPut (RouteNode.mk name handlers statics w).static_routes
                      seg child') = t := by injection hok
                refine .mk _ _ _ _ hh ?_
                intro q hq
                rcases List.mem_cons.mp hq with hq | hq
                · subst hq; exact hchild'
                · exact hs q hq
            · split at hok
              · cases hok
              · rename_i child' hrec
                have hchild' := ih _ child' m f hm (methodsOK_with_name seg) hrec
                obtain rfl : (RouteNode.mk name handlers statics w).withStatic
                    (alistPut (RouteNode.mk name handlers statics w).static_routes
                      seg child') = t := by injection hok
                refine .mk _ _ _ _ hh ?_
                intro q hq
                rcases List.mem_cons.mp hq with hq | hq
                · subst hq; exact hchild'
                · exact hs q hq

lemma addAll_methodsOK : ∀ (regs : List (HttpMethod × String × Nat))
    (node t : RouteNode), (∀ r ∈ regs, r.1 ≠ HttpMethod.noSupport) →
    MethodsOK node → addAll node regs = .ok t → MethodsOK t := by
  intro regs
  induction regs with
  | nil =>
      intro node t _ hnode hok
      obtain rfl : node = t := by simpa [addAll] using hok
      exact hnode
  | cons r rest ih =>
      intro node t hr hnode hok
      obtain ⟨m, p, f⟩ := r
      simp only [addAll] at hok
      cases hadd : HttpRouter.add node m p f with
      | error e => rw [hadd] at hok; cases hok
      | ok node' =>
          rw [hadd] at hok
          have hm : m ≠ .noSupport := hr (m, p, f) (List.mem_cons_self ..)
          have hnode' := addSegs_methodsOK _ node node' m f hm hnode hadd
          exact ih node' t (fun q hq => hr q (List.mem_cons_of_mem _ hq)) hnode' hok

lemma findSegs_noSupport_none : ∀ (segs : List String) (node : RouteNode),
    MethodsOK node → (findSegs node segs .noSupport).1 = none := by
  intro segs
  induction segs with
  | nil =>
      intro node hnode
      obtain ⟨name, handlers, statics, w, hh, hs⟩ := hnode
      simp only [findSegs, RouteNode.handlers]
      exact alistGet_eq_none hh
  | cons seg rest ih =>
      intro node hnode
      by_cases hseg : seg = ""
      · subst hseg
        simp only [findSegs, if_pos rfl]
        exact ih node hnode
      · obtain ⟨name, handlers, statics, w, hh, hs⟩ := hnode
        simp only [findSegs, if_neg hseg]
        cases hget : alistGet (RouteNode.mk name handlers statics w).static_routes seg with
        | some child =>
            have hchild : MethodsOK child := by
              have := alistGet_mem hget
              simp only [RouteNode.static_routes] at this
              exact hs (seg, child) this
            simpa using ih child hchild
        | none =>
            simpa using ih _ (methodsOK_with_name seg)

/-! ## Theorems about the router -/

/-- C1: `find_handler` is **not** read-only.  Looking up the unregistered
path `/missing` on a fresh router returns no handler, as required, but
it also inserts a placeholder child node: the root's static-child map
grows from empty to one entry.  This is the auto-create defect the spec
explicitly rules out for lookups. -/
theorem C1_find_handler_mutates_tree :
    (HttpRouter.find_handler RouteNode.newRoot "/missing" .get).1 = none ∧
      RouteNode.newRoot.static_routes.length = 0 ∧
      (HttpRouter.find_handler RouteNode.newRoot "/missing" .get).2.static_routes.length = 1 :=
  ⟨rfl, rfl, rfl⟩

/-- C2: registering a handler at the wildcard path `/files/*` does not
install a wildcard handler — the `*` arm of `HttpRouter::add` is
`todo!()`, so the registration panics (modelled `Except.error ()`), and no
descendant query can ever return a wildcard handler. -/
theorem C2_wildcard_registration_panics :
    HttpRouter.add RouteNode.newRoot .get "/files/*" 7 = .error () :=
  rfl

/-- C3 counterexample: registering a handler against `NoSupport` is
possible — `add` never validates the method — and the handler is then
found by a `NoSupport` lookup, so "registering under any method other
than Get or Post is impossible" is false. -/
theorem C3_counterexample :
    Except.map (fun t => (HttpRouter.find_handler t "/x" .noSupport).1)
      (HttpRouter.add RouteNode.newRoot .noSupport "/x" 5) = .ok (some 5) :=
  rfl

/-- C3 (amended): `add` itself never rejects a method, but provided every
registration used `Get` or `Post`, a `NoSupport` lookup finds no handler
at any path; and every method token other than `"GET"` and `"POST"`
parses to `NoSupport`. -/
theorem C3_nosupport_requests_unroutable
    (regs : List (HttpMethod × String × Nat)) (t : RouteNode)
    (hregs : ∀ r ∈ regs, r.1 = HttpMethod.get ∨ r.1 = HttpMethod.post)
    (hok : addAll RouteNode.newRoot regs = .ok t) :
    (∀ path, (HttpRouter.find_handler t path .noSupport).1 = none) ∧
      ∀ s, s ≠ "GET" → s ≠ "POST" → HttpMethod.fromStr s = .noSupport := by
  constructor
  · intro path
    have hne : ∀ r ∈ regs, r.1 ≠ HttpMethod.noSupport := by
      intro r hr
      rcases hregs r hr with h | h <;> simp [h]
    exact findSegs_noSupport_none _ _ (addAll_methodsOK regs _ t hne methodsOK_newRoot hok)
  · intro s h1 h2
    simp [HttpMethod.fromStr, h1, h2]

/-- C3 witness: the router with only `GET /a` registered routes no
`NoSupport` request, and unknown method tokens parse to `NoSupport`. -/
theorem C3_nosupport_requests_unroutable_witness :
    (∀ path, (HttpRouter.find_handler
        (RouteNode.mk "/" [] [("a", RouteNode.mk "a" [(.get, 1)] [] none)] none)
        path .noSupport).1 = none) ∧
      ∀ s, s ≠ "GET" → s ≠ "POST" → HttpMethod.fromStr s = .noSupport :=
  C3_nosupport_requests_unroutable [(.get, "/a", 1)] _
    (by intro r hr; rw [List.mem_singleton] at hr; subst hr; left; rfl)
    rfl

/-! ## Theorems about the connection and the parsers -/

/-- C6: for every configuration and raw request, the keep-alive decision
of `HttpConnection::process` is exactly the claim's rule: HTTP/1.1 keeps
alive unless `Connection` equals `"close"` (ASCII-case-insensitively);
any other version closes unless `Connection` equals `"keep-alive"`; and
the decision is forced to close when keep-alive is disabled server-wide. -/
theorem C6_keep_alive_decision (serverKA : Bool) (raw : String) :
    keepAliveDecision serverKA (requestFromStr raw) =
      keepAliveClaim serverKA (requestFromStr raw).version
        (alistGet (headersOf (requestFromStr raw).headers) "Connection") := by
  rcases requestFromStr raw with ⟨m, hdrs, bd, u, ver⟩
  rcases hco : alistGet (headersOf hdrs) "Connection" with _ | v <;>
    cases ver <;> cases serverKA <;>
      simp [keepAliveDecision, keepAliveClaim, optIsSomeAnd, hco]

/-- C7 counterexample: on the header line `"Host: a:b"` (two colons), the
`From<&str>` header loop used by the connection path records nothing,
while splitting at the first `':'` — what the claim requires, and what
`parse_headers` does — records `("Host", "a:b")`. -/
theorem C7_counterexample :
    fromStrHeaderPairs ["Host: a:b"] = [] ∧
      parse_headers_pairs ["Host: a:b"] = [("Host", "a:b")] :=
  ⟨rfl, rfl⟩

/-- C7 (amended): both header loops trim and stop at the first blank
line, but they split differently.  `parse_headers` (`splitn(2, ':')`)
records every line containing a `':'` as the trimmed first-colon split
and skips only colon-free lines; the `From<&str>` loop (`split(':')`
with a two-part check) records the same trimmed first-colon pair only
when the line contains exactly one `':'`, silently skipping lines with
no colon or with several. -/
theorem C7_header_line_recording (lines : List String) :
    parse_headers_pairs lines = firstColonHeaderPairs lines ∧
      fromStrHeaderPairs lines = exactlyOneColonHeaderPairs lines := by
  constructor
  · induction lines with
    | nil => rfl
    | cons line rest ih =>
        by_cases hline : line = ""
        · subst hline; rfl
        · simp only [parse_headers_pairs, firstColonHeaderPairs, if_neg hline]
          by_cases hcolon : ':' ∈ line.data
          · simp [splitFirstColon, String.toList, hcolon, ih, decide_not]
          · simp [splitFirstColon, String.toList, hcolon, ih, decide_not]
  · induction lines with
    | nil => rfl
    | cons line rest ih =>
        by_cases hline : line = ""
        · subst hline; rfl
        · simp only [fromStrHeaderPairs, exactlyOneColonHeaderPairs, if_neg hline]
          simp only [String.toList]
          by_cases h1 : List.count ':' line.data = 1
          · have hmem : ':' ∈ line.data := by
              by_contra hm
              rw [List.count_eq_zero_of_not_mem hm] at h1
              omega
            have htail : ':' ∉ (line.data.dropWhile (· ≠ ':')).tail := by
              have hct := count_colon_tail line.data hmem
              rw [h1] at hct
              have h0 : ((line.data.dropWhile (· ≠ ':')).tail).count ':' = 0 := by omega
              exact List.count_eq_zero.mp h0
            rw [splitChar_mem ':' line.data [] hmem,
              splitChar_not_mem ':' _ [] htail]
            simp [h1, ih, decide_not]
          · rcases hsp : splitChar ':' line.data [] with _ | ⟨x, xs⟩
            · simp [hsp, h1, ih]
            · rcases xs with _ | ⟨y, ys⟩
              · simp [hsp, h1, ih]
              · rcases ys with _ | ⟨z, zs⟩
                · exfalso
                  have hl := splitChar_length ':' line.data []
                  rw [hsp] at hl
                  simp at hl
                  omega
                · simp [hsp, h1, ih]

/-- C5 counterexample: on an HTTP/1.1 request with no `Connection`
header (keep-alive decided `true`) whose path has no route, `process`
sends the synthesized 404 but then ends the connection-processing loop
(`return Ok(())`) instead of returning to read the next request. -/
theorem C5_counterexample :
    processStep true RouteNode.newRoot "GET /nope HTTP/1.1\r\n\r\n"
      (fun _ _ => response404) = (response404, true, .closed) :=
  rfl

/-- C5 (amended): whenever no handler matches, `process` synthesizes the
`404 Not Found` response with a plain-text body and sends it as a normal
response (an `Ok` result, no error, and without touching its `Connection`
header), but then terminates the connection-processing loop
unconditionally — even when keep-alive was decided true it does not
return to reading the next request. -/
theorem C5_no_route_sends_404_then_closes (serverKA : Bool)
    (root : RouteNode) (raw : String)
    (hf : Nat → HttpRequest → HttpResponse)
    (hnone : (HttpRouter.find_handler root (requestFromStr raw).uri
      (requestFromStr raw).method).1 = none) :
    processStep serverKA root raw hf =
      (response404, keepAliveDecision serverKA (requestFromStr raw), .closed) := by
  simp only [processStep]
  rw [hnone]

/-- C5 witness: a concrete no-route request on a keep-alive-disabled
connection takes the 404-then-close path. -/
theorem C5_no_route_sends_404_then_closes_witness :
    processStep false RouteNode.newRoot "POST /absent HTTP/1.1\r\n\r\n"
      (fun _ _ => response404) =
      (response404,
        keepAliveDecision false (requestFromStr "POST /absent HTTP/1.1\r\n\r\n"),
        .closed) :=
  C5_no_route_sends_404_then_closes false RouteNode.newRoot
    "POST /absent HTTP/1.1\r\n\r\n" (fun _ _ => response404) rfl

/-! ## Theorems about bodies -/

/-- C4 counterexample: on the `Empty` body, `content_length` returns
`None`, not `Some 0` as the claim would require for an `Empty` body with
byte count 0 — so "returns Some ... exactly when the body is InMemory or
Empty" is false at `Empty`. -/
theorem C4_counterexample :
    HttpBody.content_length HttpBody.empty = none := by
  rfl

/-- C4 (amended): `content_length` returns `Some n` exactly when the body
is `InMemory` with data of length `n`; it returns `None` for every
`Streaming` body and also for `Empty` (whose byte count, though
deterministically 0, is reported as unknown — the code's own unit test
asserts this). -/
theorem C4_content_length_characterization (b : HttpRs.HttpBody) (n : Nat) :
    b.content_length = some n ↔ ∃ data, b = .inMemory data ∧ n = data.length := by
  cases b with
  | inMemory data =>
      simp only [HttpBody.content_length]
      constructor
      · intro h
        exact ⟨data, rfl, (Option.some_inj.mp h).symm⟩
      · rintro ⟨d, hd, rfl⟩
        obtain rfl : data = d := by injection hd
        rfl
  | streaming reader buf B =>
      simp [HttpBody.content_length]
  | empty =>
      simp [HttpBody.content_length]

/-- C10: the two in-memory constructors disagree on empty input.
`HttpBody::from("")` is `InMemory` with empty data and
`content_length = Some 0`; `HttpBody::from_data(vec![])` is `Empty` with
`content_length = None`; and the first `read_next` of each yields no
chunk. -/
theorem C10_empty_constructors_disagree :
    HttpBody.fromStr "" = .inMemory [] ∧
      (HttpBody.fromStr "").content_length = some 0 ∧
      HttpBody.from_data [] = .empty ∧
      (HttpBody.from_data []).content_length = none ∧
      (HttpBody.fromStr "").read_next.1 = none ∧
      (HttpBody.from_data []).read_next.1 = none := by
  refine ⟨rfl, rfl, rfl, rfl, rfl, rfl⟩

/-- C9: for a `Streaming` body built by `from_reader` with buffer size
`B`, every `read_next` call, however late in the sequence of calls, that
yields a chunk yields one of length between 1 and `B`: the internal
buffer is re-cleared and re-sized to `B` before each read, a read is
bounded by the buffer, and a zero-byte read yields `None` rather than an
empty chunk. -/
theorem C9_stream_chunk_bounds (reader : List (List Nat)) (B k : Nat)
    (c : List Nat) (h : (readCalls (HttpBody.from_reader reader B) k).1 = some c) :
    1 ≤ c.length ∧ c.length ≤ B :=
  readCalls_streamingWith k _ ⟨reader, [], rfl⟩ c h

/-- C8: for every body, the bytes `send_chunked` writes are exactly, for
each non-empty chunk yielded by `read_next`, its uppercase-hex length,
`\r\n`, the chunk bytes and `\r\n`; every zero-length mid-stream chunk is
skipped without emitting anything; and after the body is exhausted the
terminator `"0\r\n\r\n"` is written exactly once, at the end. -/
theorem C8_send_chunked_format (b : HttpBody) :
    send_chunked b =
      ((chunksOf b).filter (fun c => !c.isEmpty)).flatMap
        (fun c => hexUpper c.length ++ CRLF ++ c ++ CRLF) ++ ([48] ++ CRLF ++ CRLF) :=
  send_chunked_format_aux (bodyFuel b) b le_rfl

/-- C9 witness: the second call on a two-poll reader with buffer size 2
yields the two-byte chunk `[7, 8]`, whose length lies in `[1, 2]`. -/
theorem C9_stream_chunk_bounds_witness :
    1 ≤ [7, 8].length ∧ [7, 8].length ≤ 2 :=
  C9_stream_chunk_bounds [[5], [7, 8, 9]] 2 1 [7, 8] (by decide)

end HttpRs
